import Mathlib

/-!
Verification of the dotClar deployment-versioning backend.

The development shallowly embeds the repository's version arithmetic
(`src/utils/versionManager.js`), its change detector and deployment
controllers (`src/controllers/deploymentController.js`, both the
embedded-payload and the content-addressed variant, and the paginated
variant in `src/unnamed/part_000`), and the record store they consult.

JavaScript numbers appearing here are always non-negative integers small
enough to be exact, so they are modelled as `Nat`; machine strings are
`String`; functions that can throw return `Option`.
-/

/-! ### Decimal digits: the model of JS number rendering and parseInt -/

/-- The decimal digit character for `d < 10` (the argument is always reduced
mod 10 by callers; the catch-all keeps the function total). -/
def digitChar : Nat → Char
  | 0 => '0' | 1 => '1' | 2 => '2' | 3 => '3' | 4 => '4'
  | 5 => '5' | 6 => '6' | 7 => '7' | 8 => '8' | _ => '9'

/-- `\d` of the JS regex: an ASCII decimal digit. -/
def isDigitChar (c : Char) : Bool := 48 ≤ c.toNat && c.toNat ≤ 57

/-- Numeric value of a digit character. -/
def digitVal (c : Char) : Nat := c.toNat - 48

/-- Fuel-driven decimal rendering (structural recursion on the fuel, so
that the kernel can evaluate it; the fuel is always sufficient since a
number is larger than its digit count). -/
def renderNatFuel : Nat → Nat → List Char
  | 0, _ => []
  | fuel + 1, n =>
    if n < 10 then [digitChar n]
    else renderNatFuel fuel (n / 10) ++ [digitChar (n % 10)]

/-- Decimal rendering of a natural number, most significant digit first:
the model of the JS template interpolation of a non-negative integer. -/
def renderNat (n : Nat) : List Char := renderNatFuel (n + 1) n

/-- `parseInt(s, 10)` on an all-digit string. -/
def parseDigits (cs : List Char) : Nat :=
  cs.foldl (fun acc c => acc * 10 + digitVal c) 0

lemma digitChar_spec {d : Nat} (h : d < 10) :
    digitVal (digitChar d) = d ∧ isDigitChar (digitChar d) = true ∧ digitChar d ≠ '.' := by
  interval_cases d <;> exact ⟨rfl, rfl, by decide⟩

lemma renderNatFuel_ne_nil : ∀ (fuel n : Nat), n < fuel → renderNatFuel fuel n ≠ [] := by
  intro fuel
  induction fuel with
  | zero => intro n h; omega
  | succ fuel _ =>
    intro n _
    unfold renderNatFuel
    split
    · simp
    · simp

lemma renderNat_ne_nil (n : Nat) : renderNat n ≠ [] :=
  renderNatFuel_ne_nil (n + 1) n (Nat.lt_succ_self n)

lemma renderNatFuel_digits :
    ∀ (fuel n : Nat), n < fuel → ∀ c ∈ renderNatFuel fuel n, isDigitChar c = true := by
  intro fuel
  induction fuel with
  | zero => intro n h; omega
  | succ fuel ih =>
    intro n hn
    unfold renderNatFuel
    split
    · next h =>
      intro c hc
      simp only [List.mem_singleton] at hc
      subst hc
      exact (digitChar_spec h).2.1
    · next h =>
      intro c hc
      rw [List.mem_append] at hc
      rcases hc with hc | hc
      · have : n / 10 < fuel := by
          have hd : n / 10 < n := Nat.div_lt_self (by omega) (by omega)
          omega
        exact ih (n / 10) this c hc
      · simp only [List.mem_singleton] at hc
        subst hc
        exact (digitChar_spec (Nat.mod_lt _ (by omega))).2.1

lemma renderNat_digits (n : Nat) : ∀ c ∈ renderNat n, isDigitChar c = true :=
  renderNatFuel_digits (n + 1) n (Nat.lt_succ_self n)

lemma renderNat_no_dot (n : Nat) : ∀ c ∈ renderNat n, c ≠ '.' := by
  intro c hc
  have := renderNat_digits n c hc
  intro h
  subst h
  simp [isDigitChar] at this

lemma parseDigits_renderNatFuel :
    ∀ (fuel n : Nat), n < fuel → ∀ a : Nat,
      List.foldl (fun acc c => acc * 10 + digitVal c) a (renderNatFuel fuel n) =
        a * 10 ^ (renderNatFuel fuel n).length + n := by
  intro fuel
  induction fuel with
  | zero => intro n h; omega
  | succ fuel ih =>
    intro n hn a
    unfold renderNatFuel
    split
    · next h =>
      simp [(digitChar_spec h).1]
    · next h =>
      have hlt : n / 10 < fuel := by
        have hd : n / 10 < n := Nat.div_lt_self (by omega) (by omega)
        omega
      rw [List.foldl_append]
      rw [ih (n / 10) hlt a]
      simp only [List.foldl_cons, List.foldl_nil, List.length_append, List.length_singleton]
      rw [(digitChar_spec (Nat.mod_lt _ (by omega))).1]
      rw [pow_succ]
      have := Nat.div_add_mod n 10
      ring_nf
      omega

lemma parseDigits_renderNat (n : Nat) : parseDigits (renderNat n) = n := by
  unfold parseDigits renderNat
  rw [parseDigits_renderNatFuel (n + 1) n (Nat.lt_succ_self n) 0]
  simp

/-! ### Splitting a character list at dots (the shape test of the regex
`^(\d+)\.(\d+)\.(\d+)$`: the string must consist of exactly three
nonempty all-digit components separated by literal dots). -/

def splitOnDot : List Char → List (List Char)
  | [] => [[]]
  | c :: cs =>
    if c = '.' then [] :: splitOnDot cs
    else
      match splitOnDot cs with
      | [] => [[c]]
      | p :: ps => (c :: p) :: ps

lemma splitOnDot_ne_nil (l : List Char) : splitOnDot l ≠ [] := by
  cases l with
  | nil => simp [splitOnDot]
  | cons c cs =>
    simp only [splitOnDot]
    split
    · simp
    · split <;> simp

lemma splitOnDot_dot (cs : List Char) : splitOnDot ('.' :: cs) = [] :: splitOnDot cs := by
  simp [splitOnDot]

lemma splitOnDot_no_dot_append (xs : List Char) (hxs : ∀ c ∈ xs, c ≠ '.') :
    ∀ ys p ps, splitOnDot ys = p :: ps → splitOnDot (xs ++ ys) = (xs ++ p) :: ps := by
  induction xs with
  | nil => intro ys p ps h; simpa using h
  | cons x xt ih =>
    intro ys p ps h
    have hx : x ≠ '.' := hxs x (List.mem_cons_self x xt)
    have hxt : ∀ c ∈ xt, c ≠ '.' := fun c hc => hxs c (List.mem_cons_of_mem x hc)
    simp only [List.cons_append, splitOnDot, if_neg hx]
    rw [show xt.append ys = xt ++ ys from rfl, ih hxt ys p ps h]

lemma splitOnDot_single (xs : List Char) (hxs : ∀ c ∈ xs, c ≠ '.') :
    splitOnDot xs = [xs] := by
  have := splitOnDot_no_dot_append xs hxs [] [] [] rfl
  simpa using this

/-! ### VersionManager (src/utils/versionManager.js) -/

/-- `VersionManager.DEFAULT_VERSION`. -/
def DEFAULT_VERSION : String := "0.1.0"

/-- Is a component group of the version regex: nonempty, all decimal digits. -/
def validComp (cs : List Char) : Bool := !cs.isEmpty && cs.all isDigitChar

/-- `VersionManager.parseVersion`: matches the string against
`^(\d+)\.(\d+)\.(\d+)$` and converts the three groups with `parseInt`;
`none` models the thrown error (non-string / empty inputs also fail the
match).  The regex splits the string into exactly three nonempty all-digit
components separated by literal dots. -/
def parseVersion (version : String) : Option (Nat × Nat × Nat) :=
  match splitOnDot version.data with
  | [a, b, c] =>
    if validComp a && validComp b && validComp c then
      some (parseDigits a, parseDigits b, parseDigits c)
    else none
  | _ => none

/-- `VersionManager.createVersion` on its non-failing domain: the
components are `Nat`, so the negativity / non-integer guards (which throw
in JS) cannot fire, and the function is total here. -/
def createVersion (major minor patch : Nat) : String :=
  ⟨renderNat major ++ '.' :: (renderNat minor ++ '.' :: renderNat patch)⟩

/-- The component comparison cascade of `VersionManager.compareVersions`,
acting on already-parsed triples. -/
def compareTriples (v1 v2 : Nat × Nat × Nat) : Int :=
  if v1.1 ≠ v2.1 then (if v1.1 > v2.1 then 1 else -1)
  else if v1.2.1 ≠ v2.2.1 then (if v1.2.1 > v2.2.1 then 1 else -1)
  else if v1.2.2 ≠ v2.2.2 then (if v1.2.2 > v2.2.2 then 1 else -1)
  else 0

/-- `VersionManager.compareVersions`; `none` models the throw when either
argument fails to parse. -/
def compareVersions (version1 version2 : String) : Option Int :=
  match parseVersion version1, parseVersion version2 with
  | some v1, some v2 => some (compareTriples v1 v2)
  | _, _ => none

/-- `VersionManager.incrementPatch`. -/
def incrementPatch (currentVersion : String) : Option String :=
  (parseVersion currentVersion).map fun v => createVersion v.1 v.2.1 (v.2.2 + 1)

/-- `VersionManager.incrementMinor` (resets patch to 0). -/
def incrementMinor (currentVersion : String) : Option String :=
  (parseVersion currentVersion).map fun v => createVersion v.1 (v.2.1 + 1) 0

/-- `VersionManager.incrementMajor` (resets minor and patch to 0). -/
def incrementMajor (currentVersion : String) : Option String :=
  (parseVersion currentVersion).map fun v => createVersion (v.1 + 1) 0 0

/-- `VersionManager.calculateNextVersion`.  A `none` current version —
and, faithfully to the JS falsiness test `!currentVersion`, an empty
string — yields the default version; otherwise the requested increment is
applied, every increment type other than the literals `'major'` and
`'minor'` falling through to the `'patch'` case. -/
def calculateNextVersion (currentVersion : Option String) (incrementType : String) :
    Option String :=
  match currentVersion with
  | none => some DEFAULT_VERSION
  | some v =>
    if v = "" then some DEFAULT_VERSION
    else if incrementType = "major" then incrementMajor v
    else if incrementType = "minor" then incrementMinor v
    else incrementPatch v

/-- `VersionManager.isValidVersion`. -/
def isValidVersion (version : String) : Bool := (parseVersion version).isSome

/-! ### Round-trip and order lemmas for the version arithmetic -/

lemma validComp_renderNat (n : Nat) : validComp (renderNat n) = true := by
  have hne := renderNat_ne_nil n
  have hdig := renderNat_digits n
  unfold validComp
  rcases h : renderNat n with _ | ⟨c, cs⟩
  · exact absurd h hne
  · simp only [List.isEmpty_cons, Bool.not_false, Bool.true_and]
    rw [List.all_eq_true]
    intro x hx
    exact hdig x (h ▸ hx)

lemma parseVersion_createVersion (m n p : Nat) :
    parseVersion (createVersion m n p) = some (m, n, p) := by
  have hC : splitOnDot (renderNat p) = [renderNat p] :=
    splitOnDot_single _ (renderNat_no_dot p)
  have h1 : splitOnDot ('.' :: renderNat p) = [] :: [renderNat p] := by
    rw [splitOnDot_dot, hC]
  have h2 := splitOnDot_no_dot_append _ (renderNat_no_dot n) _ _ _ h1
  have h3 : splitOnDot ('.' :: (renderNat n ++ '.' :: renderNat p)) =
      [] :: ((renderNat n ++ []) :: [renderNat p]) := by
    rw [splitOnDot_dot, h2]
  have h4 := splitOnDot_no_dot_append _ (renderNat_no_dot m) _ _ _ h3
  simp only [List.append_nil] at h4
  unfold parseVersion createVersion
  rw [show (String.mk (renderNat m ++ '.' :: (renderNat n ++ '.' :: renderNat p))).data =
    renderNat m ++ '.' :: (renderNat n ++ '.' :: renderNat p) from rfl]
  rw [h4]
  simp only [validComp_renderNat, Bool.and_self, if_true]
  rw [parseDigits_renderNat, parseDigits_renderNat, parseDigits_renderNat]

lemma isValidVersion_createVersion (m n p : Nat) :
    isValidVersion (createVersion m n p) = true := by
  unfold isValidVersion
  rw [parseVersion_createVersion]
  rfl

lemma parseVersion_empty : parseVersion "" = none := by decide

/-- The strict component-wise (major, then minor, then patch) order that the
spec describes; the source comparator is checked against it. -/
def lexLtSpec (x y : Nat × Nat × Nat) : Prop :=
  x.1 < y.1 ∨ (x.1 = y.1 ∧ (x.2.1 < y.2.1 ∨ (x.2.1 = y.2.1 ∧ x.2.2 < y.2.2)))

lemma compareTriples_antisymm (x y : Nat × Nat × Nat) :
    compareTriples x y = -compareTriples y x := by
  obtain ⟨a1, a2, a3⟩ := x
  obtain ⟨b1, b2, b3⟩ := y
  unfold compareTriples
  simp only [ne_eq]
  split_ifs <;> omega

lemma compareTriples_range (x y : Nat × Nat × Nat) :
    compareTriples x y = -1 ∨ compareTriples x y = 0 ∨ compareTriples x y = 1 := by
  obtain ⟨a1, a2, a3⟩ := x
  obtain ⟨b1, b2, b3⟩ := y
  unfold compareTriples
  split_ifs <;> simp

lemma compareTriples_self (x : Nat × Nat × Nat) : compareTriples x x = 0 := by
  obtain ⟨a1, a2, a3⟩ := x
  unfold compareTriples
  simp

lemma compareTriples_lt_iff (x y : Nat × Nat × Nat) :
    compareTriples x y = -1 ↔ lexLtSpec x y := by
  obtain ⟨a1, a2, a3⟩ := x
  obtain ⟨b1, b2, b3⟩ := y
  unfold compareTriples lexLtSpec
  simp only [ne_eq]
  split_ifs <;> simp <;> omega

lemma compareTriples_trans {x y z : Nat × Nat × Nat}
    (hxy : compareTriples x y = -1) (hyz : compareTriples y z = -1) :
    compareTriples x z = -1 := by
  rw [compareTriples_lt_iff] at hxy hyz ⊢
  unfold lexLtSpec at hxy hyz ⊢
  omega

lemma compareTriples_succ_patch (m n p : Nat) :
    compareTriples (m, n, p) (m, n, p + 1) = -1 := by
  unfold compareTriples
  simp

/-! ### Version statistics (VersionManager.getVersionStats) -/

/-- The parsed key of a version string (defaulted for the invalid strings,
on which the statistics code never relies). -/
def keyOf (s : String) : Nat × Nat × Nat := (parseVersion s).getD (0, 0, 0)

/-- The sort order of `sort((a, b) => this.compareVersions(a, b))`.  The JS
comparator is only ever applied to valid version strings, on which this
`le` agrees with `compareVersions a b ≤ 0`; going through the parsed key
extends it to a total transitive relation on all strings. -/
def versionLe (a b : String) : Bool := decide (compareTriples (keyOf a) (keyOf b) ≤ 0)

/-- The JS `Set.add`: append the element unless already present. -/
def setInsert {α : Type} [DecidableEq α] (l : List α) (x : α) : List α :=
  if x ∈ l then l else l.concat x

/-- The result shape of `getVersionStats`. -/
structure VersionStats where
  total : Nat
  latest : Option String
  oldest : Option String
  majorReleases : Nat
  minorReleases : Nat
  patchReleases : Nat
deriving DecidableEq

/-- The all-zero / absent statistics returned on empty input. -/
def emptyStats : VersionStats := ⟨0, none, none, 0, 0, 0⟩

/-- The major component collected into `majorVersions`. -/
def majorKey (s : String) : Nat := (keyOf s).1

/-- The `(major, minor)` pair collected into `minorVersions`; the JS code
keys its set by the string `major + "." + minor`, which is in bijection
with the pair since decimal renderings contain no dot. -/
def majorMinorKey (s : String) : Nat × Nat := ((keyOf s).1, (keyOf s).2.1)

/-- `VersionManager.getVersionStats`. -/
def getVersionStats (versions : List String) : VersionStats :=
  if versions.isEmpty then emptyStats
  else
    let validVersions := versions.filter isValidVersion
    if validVersions.isEmpty then emptyStats
    else
      let sortedVersions := validVersions.insertionSort fun a b => versionLe a b = true
      let majorVersions := sortedVersions.foldl (fun s v => setInsert s (majorKey v)) []
      let minorVersions := sortedVersions.foldl (fun s v => setInsert s (majorMinorKey v)) []
      { total := validVersions.length
        latest := sortedVersions.getLast?
        oldest := sortedVersions.head?
        majorReleases := majorVersions.length
        minorReleases := minorVersions.length
        patchReleases := validVersions.length }

lemma compareTriples_eq_zero_iff (x y : Nat × Nat × Nat) :
    compareTriples x y = 0 ↔ x = y := by
  obtain ⟨a1, a2, a3⟩ := x
  obtain ⟨b1, b2, b3⟩ := y
  unfold compareTriples
  simp only [ne_eq, Prod.mk.injEq]
  split_ifs <;> simp <;> omega

lemma versionLe_refl (a : String) : versionLe a a = true := by
  unfold versionLe
  rw [compareTriples_self]
  decide

lemma versionLe_total (a b : String) : (versionLe a b || versionLe b a) = true := by
  unfold versionLe
  have h := compareTriples_antisymm (keyOf a) (keyOf b)
  have hr := compareTriples_range (keyOf a) (keyOf b)
  rw [Bool.or_eq_true, decide_eq_true_iff, decide_eq_true_iff]
  omega

lemma versionLe_trans (a b c : String) (hab : versionLe a b = true)
    (hbc : versionLe b c = true) : versionLe a c = true := by
  unfold versionLe at hab hbc ⊢
  rw [decide_eq_true_iff] at hab hbc ⊢
  have rab := compareTriples_range (keyOf a) (keyOf b)
  have rbc := compareTriples_range (keyOf b) (keyOf c)
  rcases rab with h1 | h1 | h1
  · rcases rbc with h2 | h2 | h2
    · rw [compareTriples_trans h1 h2]; decide
    · rw [compareTriples_eq_zero_iff] at h2
      rw [← h2, h1]; decide
    · omega
  · rw [compareTriples_eq_zero_iff] at h1
    rw [h1]; exact hbc
  · omega

lemma pairwise_head_le {α : Type} {le : α → α → Bool} {x : α} {l : List α}
    (h : (x :: l).Pairwise (fun a b => le a b = true)) (hx : le x x = true) :
    ∀ w ∈ x :: l, le x w = true := by
  intro w hw
  rcases List.mem_cons.mp hw with rfl | hw
  · exact hx
  · exact (List.pairwise_cons.mp h).1 w hw

lemma pairwise_le_getLast {α : Type} {le : α → α → Bool}
    (hrefl : ∀ a, le a a = true) :
    ∀ (l : List α) (hne : l ≠ []), l.Pairwise (fun a b => le a b = true) →
      ∀ w ∈ l, le w (l.getLast hne) = true := by
  intro l
  induction l with
  | nil => intro hne; exact absurd rfl hne
  | cons x t ih =>
    intro hne hp w hw
    cases t with
    | nil =>
      simp only [List.mem_singleton] at hw
      subst hw
      exact hrefl _
    | cons y tt =>
      rw [List.getLast_cons (by simp : (y :: tt : List α) ≠ [])]
      rcases List.mem_cons.mp hw with rfl | hw2
      · have hmem := List.getLast_mem (show (y :: tt : List α) ≠ [] by simp)
        exact (List.pairwise_cons.mp hp).1 _ hmem
      · exact ih (by simp) (List.pairwise_cons.mp hp).2 w hw2

lemma setInsert_nodup {α : Type} [DecidableEq α] {l : List α} (h : l.Nodup) (x : α) :
    (setInsert l x).Nodup := by
  unfold setInsert
  split
  · exact h
  · next hx =>
    rw [List.concat_eq_append]
    exact List.Nodup.append h (List.nodup_singleton x) (by simpa using hx)

lemma setInsert_toFinset {α : Type} [DecidableEq α] (l : List α) (x : α) :
    (setInsert l x).toFinset = insert x l.toFinset := by
  unfold setInsert
  split
  · next hx =>
    rw [Finset.insert_eq_self.mpr (List.mem_toFinset.mpr hx)]
  · rw [List.concat_eq_append, List.toFinset_append]
    ext y
    simp
    tauto

lemma foldl_setInsert_nodup {α β : Type} [DecidableEq β] (f : α → β) :
    ∀ (xs : List α) (acc : List β), acc.Nodup →
      (xs.foldl (fun s v => setInsert s (f v)) acc).Nodup := by
  intro xs
  induction xs with
  | nil => intro acc h; exact h
  | cons x t ih => intro acc h; exact ih _ (setInsert_nodup h (f x))

lemma foldl_setInsert_toFinset {α β : Type} [DecidableEq β] (f : α → β) :
    ∀ (xs : List α) (acc : List β),
      (xs.foldl (fun s v => setInsert s (f v)) acc).toFinset =
        acc.toFinset ∪ (xs.map f).toFinset := by
  intro xs
  induction xs with
  | nil => intro acc; simp
  | cons x t ih =>
    intro acc
    simp only [List.foldl_cons, List.map_cons, List.toFinset_cons]
    rw [ih, setInsert_toFinset]
    ext y
    simp

lemma foldl_setInsert_card {α β : Type} [DecidableEq β] (f : α → β) (xs : List α) :
    (xs.foldl (fun s v => setInsert s (f v)) []).length = (xs.map f).toFinset.card := by
  have hnd := foldl_setInsert_nodup f xs [] List.nodup_nil
  have htf := foldl_setInsert_toFinset f xs []
  rw [← List.toFinset_card_of_nodup hnd, htf]
  simp

/-! ### JSON payloads and JSON.stringify -/

mutual

/-- A JSON value as handled by the controllers; objects keep their key
insertion order, exactly as JS objects and `JSON.stringify` do. -/
inductive JsonVal : Type where
  | null : JsonVal
  | bool : Bool → JsonVal
  | num : Int → JsonVal
  | str : String → JsonVal
  | arr : JsonElems → JsonVal
  | obj : JsonMembers → JsonVal

/-- The element sequence of a JSON array. -/
inductive JsonElems : Type where
  | nil : JsonElems
  | cons : JsonVal → JsonElems → JsonElems

/-- The member sequence of a JSON object, in key insertion order. -/
inductive JsonMembers : Type where
  | nil : JsonMembers
  | cons : String → JsonVal → JsonMembers → JsonMembers

end

/-- The members of a JSON object as an association list, in order. -/
def membersList : JsonMembers → List (String × JsonVal)
  | .nil => []
  | .cons k v rest => (k, v) :: membersList rest

/-- Decimal rendering of a JSON integer. -/
def renderInt (i : Int) : List Char :=
  if i < 0 then '-' :: renderNat i.natAbs else renderNat i.toNat

/-- The JSON escape of one string character (quote and backslash; other
escapes do not occur in the payloads considered here). -/
def escapeChar (c : Char) : List Char :=
  if c = '"' then ['\\', '"'] else if c = '\\' then ['\\', '\\'] else [c]

/-- Escape a character list for a JSON string literal. -/
def escapeChars (cs : List Char) : List Char :=
  cs.foldr (fun c acc => escapeChar c ++ acc) []

/-- A JSON string literal: quoted and escaped. -/
def renderStr (s : String) : String := ⟨'"' :: (escapeChars s.data ++ ['"'])⟩

mutual

/-- `JSON.stringify` (compact form, no spacing): object members are
serialized in key insertion order. -/
def stringify : JsonVal → String
  | .null => "null"
  | .bool b => if b then "true" else "false"
  | .num i => ⟨renderInt i⟩
  | .str s => renderStr s
  | .arr xs => "[" ++ stringifyElems xs ++ "]"
  | .obj kvs => "\x7b" ++ stringifyMembers kvs ++ "\x7d"

/-- Comma-separated serialization of array elements. -/
def stringifyElems : JsonElems → String
  | .nil => ""
  | .cons x .nil => stringify x
  | .cons x (.cons y rest) => stringify x ++ "," ++ stringifyElems (.cons y rest)

/-- Comma-separated serialization of object members, in list (= key
insertion) order. -/
def stringifyMembers : JsonMembers → String
  | .nil => ""
  | .cons k v .nil => renderStr k ++ ":" ++ stringify v
  | .cons k v (.cons k2 v2 rest) =>
    renderStr k ++ ":" ++ stringify v ++ "," ++ stringifyMembers (.cons k2 v2 rest)

end

/-- JS truthiness of a JSON value (`null`, `false`, `0` and `""` are
falsy; absent fields, being `undefined`, are identified with `null`). -/
def jsTruthyJson : JsonVal → Bool
  | .null => false
  | .bool b => b
  | .num i => decide (i ≠ 0)
  | .str s => decide (s ≠ "")
  | _ => true

/-- JS truthiness of an optional JSON value (`none` models a missing /
undefined value). -/
def jsTruthyOptJson : Option JsonVal → Bool
  | none => false
  | some j => jsTruthyJson j

/-- JS truthiness of an optional string (the empty string is falsy). -/
def jsTruthyOptStr : Option String → Bool
  | none => false
  | some s => decide (s ≠ "")

/-- Serialization of the argument actually passed to `JSON.stringify`;
the `none` case is unreachable in the guarded comparison below. -/
def stringifyOpt : Option JsonVal → String
  | none => ""
  | some j => stringify j

/-- `hasContractCodeChanged` of the embedded-payload controller
(src/controllers/deploymentController.js, first variant): truthiness
guards on the two arguments, then inequality of the `JSON.stringify`
serializations. -/
def hasContractCodeChangedObj (oldCode newCode : Option JsonVal) : Bool :=
  if !jsTruthyOptJson oldCode && jsTruthyOptJson newCode then true
  else if jsTruthyOptJson oldCode && !jsTruthyOptJson newCode then true
  else if !jsTruthyOptJson oldCode && !jsTruthyOptJson newCode then false
  else decide (stringifyOpt oldCode ≠ stringifyOpt newCode)

/-- `hasContractCodeChanged` of the content-addressed controller
(src/controllers/deploymentController.js, second variant): truthiness
guards, then string inequality of the IPFS hashes. -/
def hasContractCodeChangedHash (oldHash newHash : Option String) : Bool :=
  if !jsTruthyOptStr oldHash && jsTruthyOptStr newHash then true
  else if jsTruthyOptStr oldHash && !jsTruthyOptStr newHash then true
  else if !jsTruthyOptStr oldHash && !jsTruthyOptStr newHash then false
  else decide (oldHash ≠ newHash)

/-! ### The deployment record store and the write/read flows -/

/-- ASCII lowercasing of one character (the wallet strings this is
applied to are ASCII). -/
def toLowerChar (c : Char) : Char :=
  if 65 ≤ c.toNat && c.toNat ≤ 90 then Char.ofNat (c.toNat + 32) else c

/-- `String.prototype.toLowerCase` on the ASCII strings in play. -/
def jsToLower (s : String) : String := ⟨s.data.map toLowerChar⟩

/-- A whitespace character as far as `String.prototype.trim` is concerned
(the characters that occur in practice). -/
def isWsChar (c : Char) : Bool := c = ' ' || c = '\t' || c = '\n' || c = '\r'

/-- `String.prototype.trim`: strip leading and trailing whitespace. -/
def jsTrim (s : String) : String :=
  ⟨((s.data.dropWhile isWsChar).reverse.dropWhile isWsChar).reverse⟩

/-- A persisted deployment record (the embedded-payload shape of
src/models/Deployment.js; timestamps are represented by list position,
`deployedAt` being monotone in insertion order with the spec's
insertion-order tie-break). -/
structure DeploymentRec where
  walletAddress : String
  contractRepoName : String
  contractCode : JsonVal
  version : String

/-- Outcome of a write request, abstracting the HTTP responses. -/
inductive DeployResult : Type where
  | created : String → DeployResult
  | badRequest : String → DeployResult
  | serverError : DeployResult
deriving DecidableEq

/-- The chronological (oldest-first) subsequence of the store holding one
(wallet, repository) identity's records. -/
def filterRepo (store : List DeploymentRec) (walletAddress contractRepoName : String) :
    List DeploymentRec :=
  store.filter fun r =>
    r.walletAddress == walletAddress && r.contractRepoName == contractRepoName

/-- Modelled from the spec: `Deployment.findLatestByRepo`, consulted by the
CommonJS controllers, lives in a model file that is not under src/; per
spec §6 it is `findLatest(identity)` — the newest record for the identity,
i.e. the last record of its chronological sequence, or absent. -/
def findLatestByRepo (store : List DeploymentRec) (walletAddress contractRepoName : String) :
    Option DeploymentRec :=
  (filterRepo store walletAddress contractRepoName).getLast?

/-- `Deployment.findLatestVersion` (src/models/Deployment.js): the version
of the newest record of the identity, the wallet being lowercased before
the query as in the source. -/
def findLatestVersion (store : List DeploymentRec) (walletAddress contractRepoName : String) :
    Option String :=
  ((filterRepo store (jsToLower walletAddress) contractRepoName).getLast?).map (·.version)

/-- Modelled from the spec: `getNextVersion`, imported by the CommonJS
controllers from a version-manager build that is not under src/; per spec
§4.1, `next(current, kind = patch)` — the fixed baseline `"0.1.0"` for an
absent current version, otherwise a patch increment.  It agrees with the
in-repo `calculateNextVersion` at that function's default increment
type. -/
def getNextVersion (currentVersion : Option String) : Option String :=
  calculateNextVersion currentVersion "patch"

/-- One character of `[a-fA-F0-9]`. -/
def isHexChar (c : Char) : Bool :=
  (48 ≤ c.toNat && c.toNat ≤ 57) || (97 ≤ c.toNat && c.toNat ≤ 102) ||
    (65 ≤ c.toNat && c.toNat ≤ 70)

/-- The wallet regex `^0x[a-fA-F0-9]{40}$`. -/
def isValidWallet (s : String) : Bool :=
  match s.data with
  | '0' :: 'x' :: rest => rest.length == 40 && rest.all isHexChar
  | _ => false

/-- `createDeployment` (src/controllers/deploymentController.js, the
embedded-payload variant): field/format validation, change detection
against the latest record of the identity, and version assignment.  The
response's message/id fields are abstracted into `DeployResult`; a missing
body field is the falsy value of its type. -/
def createDeployment (store : List DeploymentRec) (walletAddress : String)
    (contractCode : JsonVal) (contractRepoName : String) :
    DeployResult × List DeploymentRec :=
  if walletAddress = "" || !jsTruthyJson contractCode || contractRepoName = "" then
    (.badRequest "Missing required fields: walletAddress, contractCode, contractRepoName", store)
  else if !isValidWallet walletAddress then
    (.badRequest "Invalid Ethereum wallet address format", store)
  else
    match findLatestByRepo store walletAddress contractRepoName with
    | some latestDeployment =>
      if !hasContractCodeChangedObj (some latestDeployment.contractCode) (some contractCode) then
        (.badRequest "nothing to commit, everything is up to date", store)
      else
        match getNextVersion (some latestDeployment.version) with
        | some nextVersion =>
          (.created nextVersion,
            store ++ [⟨walletAddress, contractRepoName, contractCode, nextVersion⟩])
        | none => (.serverError, store)
    | none =>
      match getNextVersion none with
      | some nextVersion =>
        (.created nextVersion,
          store ++ [⟨walletAddress, contractRepoName, contractCode, nextVersion⟩])
      | none => (.serverError, store)

/-- `DeploymentController.deployContract` (src/unnamed/part_000, the
paginated variant): validation, identity normalization, version
computation from the latest stored version, unconditional append — this
variant performs no change detection. -/
def deployContract (store : List DeploymentRec) (walletAddress : String)
    (contractCode : JsonVal) (contractRepoName : String) :
    DeployResult × List DeploymentRec :=
  if walletAddress = "" || !jsTruthyJson contractCode || contractRepoName = "" then
    (.badRequest "Missing required fields", store)
  else if !isValidWallet walletAddress then
    (.badRequest "Invalid wallet address format", store)
  else if !(match contractCode with | .obj _ => true | _ => false) then
    (.badRequest "Contract code must be a valid JSON object", store)
  else if jsTrim contractRepoName = "" then
    (.badRequest "Contract repository name must be a non-empty string", store)
  else
    let normalizedWallet := jsToLower walletAddress
    let trimmedRepoName := jsTrim contractRepoName
    match calculateNextVersion (findLatestVersion store normalizedWallet trimmedRepoName)
        "patch" with
    | some nextVersion =>
      (.created nextVersion,
        store ++ [⟨normalizedWallet, trimmedRepoName, contractCode, nextVersion⟩])
    | none => (.serverError, store)

/-- Outcome of the repository-history listing. -/
inductive HistoryResult : Type where
  | badRequest : String → HistoryResult
  | notFound : String → HistoryResult
  | ok : List (DeploymentRec × Bool) → HistoryResult

/-- Modelled from the spec: `Deployment.findRepoHistory`, consulted by the
CommonJS history controller, lives in a model file that is not under src/;
per spec §6 `findAll(identity)` is the identity's chronological record
sequence, ascending when the pairwise change annotations are computed. -/
def findRepoHistory (store : List DeploymentRec) (walletAddress repo : String) :
    List DeploymentRec :=
  filterRepo store walletAddress repo

/-- The pairwise change annotation of the history listing: each record is
paired with `hasContractCodeChanged(previous, current)`, the first record
counting as changed. -/
def annotateChanges : List DeploymentRec → Option DeploymentRec → List (DeploymentRec × Bool)
  | [], _ => []
  | d :: rest, prev =>
    (d, match prev with
        | none => true
        | some p => hasContractCodeChangedObj (some p.contractCode) (some d.contractCode)) ::
      annotateChanges rest (some d)

/-- `getRepoDeploymentHistory` (src/controllers/deploymentController.js):
parameter presence check, then 404 when the repository has no records,
otherwise the annotated records. -/
def getRepoDeploymentHistory (store : List DeploymentRec) (walletAddress repo : String) :
    HistoryResult :=
  if walletAddress = "" || repo = "" then
    .badRequest "Wallet address and repository name are required"
  else
    let deployments := findRepoHistory store walletAddress repo
    if deployments.length = 0 then
      .notFound "No deployments found for the specified repository"
    else
      .ok (annotateChanges deployments none)

/-- Outcome of the paginated repository listing (total count and the
records newest-first; the limit/offset slicing and the version-statistics
payload, both computed from the same filtered records, are omitted). -/
inductive RepoListResult : Type where
  | badRequest : String → RepoListResult
  | notFound : String → RepoListResult
  | ok : Nat → List DeploymentRec → RepoListResult

/-- `DeploymentController.getDeploymentsByRepo` (src/unnamed/part_000):
wallet/repository validation, then 404 when the identity's record count is
zero (`decodeURIComponent` is modelled as the identity map on repository
names). -/
def getDeploymentsByRepo (store : List DeploymentRec) (walletAddress repo : String) :
    RepoListResult :=
  if !isValidWallet walletAddress then .badRequest "Invalid wallet address format"
  else if jsTrim repo = "" then .badRequest "Repository name cannot be empty"
  else
    let totalCount := (filterRepo store (jsToLower walletAddress) (jsTrim repo)).length
    if totalCount = 0 then .notFound "No deployments found for this repository"
    else .ok totalCount (filterRepo store (jsToLower walletAddress) (jsTrim repo)).reverse

/-- Serial execution of the embedded-payload write flow over a list of
requests (wallet, payload, repository), starting from an empty store. -/
def runAll (reqs : List (String × JsonVal × String)) : List DeploymentRec :=
  reqs.foldl (fun st r => (createDeployment st r.1 r.2.1 r.2.2).2) []

/-! ### Lemmas about the write flow -/

lemma parseVersion_ne_empty {v : String} {t : Nat × Nat × Nat}
    (h : parseVersion v = some t) : v ≠ "" := by
  intro he
  subst he
  have hnone : parseVersion "" = none := by decide
  rw [hnone] at h
  exact Option.noConfusion h

lemma getNextVersion_none : getNextVersion none = some "0.1.0" := rfl

lemma getNextVersion_parse {v : String} {m n p : Nat} (h : parseVersion v = some (m, n, p)) :
    getNextVersion (some v) = some (createVersion m n (p + 1)) := by
  have hstep : getNextVersion (some v) =
      if v = "" then some DEFAULT_VERSION
      else if ("patch" : String) = "major" then incrementMajor v
      else if ("patch" : String) = "minor" then incrementMinor v
      else incrementPatch v := rfl
  rw [hstep, if_neg (parseVersion_ne_empty h)]
  rw [if_neg (by decide : ¬("patch" : String) = "major")]
  rw [if_neg (by decide : ¬("patch" : String) = "minor")]
  unfold incrementPatch
  rw [h]
  rfl

lemma compareVersions_patch {v : String} {m n p : Nat} (h : parseVersion v = some (m, n, p)) :
    compareVersions v (createVersion m n (p + 1)) = some (-1) := by
  unfold compareVersions
  rw [h, parseVersion_createVersion]
  show some (compareTriples (m, n, p) (m, n, p + 1)) = some (-1)
  rw [compareTriples_succ_patch]

lemma isValidVersion_some {v : String} (h : isValidVersion v = true) :
    ∃ t, parseVersion v = some t := by
  unfold isValidVersion at h
  exact Option.isSome_iff_exists.mp h

lemma filterRepo_append (st : List DeploymentRec) (rec : DeploymentRec) (W repo : String) :
    filterRepo (st ++ [rec]) W repo =
      filterRepo st W repo ++
        if rec.walletAddress == W && rec.contractRepoName == repo then [rec] else [] := by
  unfold filterRepo
  rw [List.filter_append]
  congr 1
  simp [List.filter]
  split <;> simp_all

/-- The per-identity invariant maintained by the embedded-payload write
flow: every stored version is well-formed and every identity's
chronological version sequence is strictly increasing under compare. -/
def StoreInv (st : List DeploymentRec) : Prop :=
  (∀ r ∈ st, isValidVersion r.version = true) ∧
  ∀ W repo, List.Chain' (fun a b => compareVersions a b = some (-1))
    ((filterRepo st W repo).map (·.version))

lemma StoreInv_nil : StoreInv [] := by
  constructor
  · intro r hr; simp at hr
  · intro W repo; simp [filterRepo]

lemma StoreInv_append (st : List DeploymentRec) (inv : StoreInv st)
    (rec : DeploymentRec) (hv : isValidVersion rec.version = true)
    (hlink : ∀ latest, findLatestByRepo st rec.walletAddress rec.contractRepoName = some latest →
      compareVersions latest.version rec.version = some (-1)) :
    StoreInv (st ++ [rec]) := by
  constructor
  · intro r hr
    rw [List.mem_append] at hr
    rcases hr with hr | hr
    · exact inv.1 r hr
    · simp only [List.mem_singleton] at hr
      subst hr
      exact hv
  · intro W repo
    rw [filterRepo_append]
    split
    · next hmatch =>
      rw [Bool.and_eq_true, beq_iff_eq, beq_iff_eq] at hmatch
      obtain ⟨hw, hr⟩ := hmatch
      subst hw hr
      rw [List.map_append]
      rw [List.chain'_append]
      refine ⟨inv.2 _ _, by simp, ?_⟩
      intro x hx y hy
      simp only [List.map_singleton, List.head?_cons, Option.mem_def, Option.some.injEq] at hy
      subst hy
      rw [List.getLast?_map] at hx
      simp only [Option.mem_def, Option.map_eq_some'] at hx
      obtain ⟨latest, hlast, hver⟩ := hx
      subst hver
      exact hlink latest hlast
    · rw [List.append_nil]
      exact inv.2 W repo

lemma mem_of_findLatestByRepo {st : List DeploymentRec} {W repo : String}
    {latest : DeploymentRec} (h : findLatestByRepo st W repo = some latest) :
    latest ∈ st ∧ latest.walletAddress = W ∧ latest.contractRepoName = repo := by
  unfold findLatestByRepo at h
  have hmem := List.mem_of_getLast?_eq_some h
  unfold filterRepo at hmem
  rw [List.mem_filter] at hmem
  obtain ⟨hst, hcond⟩ := hmem
  rw [Bool.and_eq_true, beq_iff_eq, beq_iff_eq] at hcond
  exact ⟨hst, hcond.1, hcond.2⟩

lemma createDeployment_inv (st : List DeploymentRec) (inv : StoreInv st)
    (W : String) (cc : JsonVal) (repo : String) :
    StoreInv (createDeployment st W cc repo).2 := by
  unfold createDeployment
  split
  · exact inv
  split
  · exact inv
  split
  · next latest hlatest =>
    split
    · exact inv
    split
    · next nv hnv =>
      have hmem := mem_of_findLatestByRepo hlatest
      have hvalid := inv.1 latest hmem.1
      obtain ⟨⟨m, n, p⟩, hparse⟩ := isValidVersion_some hvalid
      have hnext := getNextVersion_parse hparse
      rw [hnext] at hnv
      injection hnv with hnv
      subst hnv
      apply StoreInv_append st inv
      · exact isValidVersion_createVersion m n (p + 1)
      · intro l' hl'
        show compareVersions l'.version (createVersion m n (p + 1)) = some (-1)
        have : l' = latest := by
          have := hl'.symm.trans hlatest
          injection this
        subst this
        exact compareVersions_patch hparse
    · exact inv
  · next hnone =>
    split
    · next nv hnv =>
      rw [getNextVersion_none] at hnv
      injection hnv with hnv
      subst hnv
      apply StoreInv_append st inv
      · show isValidVersion "0.1.0" = true
        decide
      · intro l' hl'
        rw [hl'] at hnone
        exact Option.noConfusion hnone
    · exact inv

lemma StoreInv_runAll (reqs : List (String × JsonVal × String)) : StoreInv (runAll reqs) := by
  unfold runAll
  have main : ∀ (rs : List (String × JsonVal × String)) (st : List DeploymentRec),
      StoreInv st → StoreInv (rs.foldl (fun s r => (createDeployment s r.1 r.2.1 r.2.2).2) st) := by
    intro rs
    induction rs with
    | nil => intro st h; exact h
    | cons r rest ih =>
      intro st h
      exact ih _ (createDeployment_inv st h r.1 r.2.1 r.2.2)
  exact main reqs [] StoreInv_nil

/-! ### Characterization of getVersionStats -/

instance : IsTotal String fun a b => versionLe a b = true :=
  ⟨fun a b => Bool.or_eq_true _ _ |>.mp (versionLe_total a b)⟩

instance : IsTrans String fun a b => versionLe a b = true :=
  ⟨fun a b c => versionLe_trans a b c⟩

lemma perm_toFinset {α : Type} [DecidableEq α] {l1 l2 : List α} (h : l1.Perm l2) :
    l1.toFinset = l2.toFinset := by
  ext a
  simp [List.mem_toFinset, h.mem_iff]

lemma filter_idem {α : Type} (p : α → Bool) (l : List α) :
    (l.filter p).filter p = l.filter p := by
  apply List.filter_eq_self.mpr
  intro a ha
  exact (List.mem_filter.mp ha).2

lemma getVersionStats_nil_valid (vs : List String)
    (hf : vs.filter isValidVersion = []) : getVersionStats vs = emptyStats := by
  unfold getVersionStats
  split
  · rfl
  · dsimp only
    rw [show (vs.filter isValidVersion).isEmpty = true by
      rw [List.isEmpty_eq_true]; exact hf]
    rfl

lemma getVersionStats_pos (vs : List String) (hne : vs.filter isValidVersion ≠ []) :
    getVersionStats vs =
      { total := (vs.filter isValidVersion).length
        latest := ((vs.filter isValidVersion).insertionSort
          fun a b => versionLe a b = true).getLast?
        oldest := ((vs.filter isValidVersion).insertionSort
          fun a b => versionLe a b = true).head?
        majorReleases := (((vs.filter isValidVersion).insertionSort
          fun a b => versionLe a b = true).foldl
            (fun s v => setInsert s (majorKey v)) []).length
        minorReleases := (((vs.filter isValidVersion).insertionSort
          fun a b => versionLe a b = true).foldl
            (fun s v => setInsert s (majorMinorKey v)) []).length
        patchReleases := (vs.filter isValidVersion).length } := by
  have hvs : vs ≠ [] := by
    intro h
    subst h
    simp at hne
  unfold getVersionStats
  rw [if_neg (by rw [List.isEmpty_eq_true]; exact hvs)]
  dsimp only
  rw [if_neg (by rw [List.isEmpty_eq_true]; exact hne)]

/-! ### Helper lemmas for calculateNextVersion at each increment type -/

lemma calculateNextVersion_patch {v : String} {m n p : Nat}
    (h : parseVersion v = some (m, n, p)) (kind : String)
    (hmaj : kind ≠ "major") (hmin : kind ≠ "minor") :
    calculateNextVersion (some v) kind = some (createVersion m n (p + 1)) := by
  have hstep : calculateNextVersion (some v) kind =
      if v = "" then some DEFAULT_VERSION
      else if kind = "major" then incrementMajor v
      else if kind = "minor" then incrementMinor v
      else incrementPatch v := rfl
  rw [hstep, if_neg (parseVersion_ne_empty h), if_neg hmaj, if_neg hmin]
  unfold incrementPatch
  rw [h]
  rfl

lemma calculateNextVersion_minor {v : String} {m n p : Nat}
    (h : parseVersion v = some (m, n, p)) :
    calculateNextVersion (some v) "minor" = some (createVersion m (n + 1) 0) := by
  have hstep : calculateNextVersion (some v) "minor" =
      if v = "" then some DEFAULT_VERSION
      else if ("minor" : String) = "major" then incrementMajor v
      else if ("minor" : String) = "minor" then incrementMinor v
      else incrementPatch v := rfl
  rw [hstep, if_neg (parseVersion_ne_empty h),
    if_neg (by decide : ¬("minor" : String) = "major"), if_pos rfl]
  unfold incrementMinor
  rw [h]
  rfl

lemma calculateNextVersion_major {v : String} {m n p : Nat}
    (h : parseVersion v = some (m, n, p)) :
    calculateNextVersion (some v) "major" = some (createVersion (m + 1) 0 0) := by
  have hstep : calculateNextVersion (some v) "major" =
      if v = "" then some DEFAULT_VERSION
      else if ("major" : String) = "major" then incrementMajor v
      else if ("major" : String) = "minor" then incrementMinor v
      else incrementPatch v := rfl
  rw [hstep, if_neg (parseVersion_ne_empty h), if_pos rfl]
  unfold incrementMajor
  rw [h]
  rfl

lemma compareVersions_eq {a b : String} {xa xb : Nat × Nat × Nat}
    (ha : parseVersion a = some xa) (hb : parseVersion b = some xb) :
    compareVersions a b = some (compareTriples xa xb) := by
  unfold compareVersions
  rw [ha, hb]

/-! ### Claim theorems -/

/-- C7: for all non-negative integers m, n, p, parsing the rendered
version string gives back the components:
`parse(render(m, n, p)) == (m, n, p)`. -/
theorem c7_parse_render_round_trip (m n p : Nat) :
    parseVersion (createVersion m n p) = some (m, n, p) :=
  parseVersion_createVersion m n p

/-- C3: `calculateNextVersion` returns the fixed baseline "0.1.0" when the
current version is absent; otherwise, on a well-formed current version,
kind patch increments only the patch component, kind minor increments
minor and resets patch, and kind major increments major and resets minor
and patch — including the spec's examples. -/
theorem c3_calculate_next_version (kind v : String) (m n p : Nat)
    (h : parseVersion v = some (m, n, p)) :
    calculateNextVersion none kind = some "0.1.0" ∧
    calculateNextVersion (some v) "patch" = some (createVersion m n (p + 1)) ∧
    calculateNextVersion (some v) "minor" = some (createVersion m (n + 1) 0) ∧
    calculateNextVersion (some v) "major" = some (createVersion (m + 1) 0 0) ∧
    calculateNextVersion (some "0.1.0") "patch" = some "0.1.1" ∧
    calculateNextVersion (some "0.1.9") "minor" = some "0.2.0" ∧
    calculateNextVersion (some "1.2.3") "major" = some "2.0.0" := by
  refine ⟨rfl, ?_, calculateNextVersion_minor h, calculateNextVersion_major h,
    by decide, by decide, by decide⟩
  exact calculateNextVersion_patch h "patch" (by decide) (by decide)

/-- C3 witness: the universal part evaluated at the parsed version
"0.1.9". -/
theorem c3_calculate_next_version_witness :
    parseVersion "0.1.9" = some (0, 1, 9) ∧
    calculateNextVersion (some "0.1.9") "patch" = some (createVersion 0 1 10) := by
  have h : parseVersion "0.1.9" = some (0, 1, 9) := by decide
  exact ⟨h, (c3_calculate_next_version "patch" "0.1.9" 0 1 9 h).2.1⟩

/-- C10: every increment type other than the literals 'major' and 'minor'
(for example 'foo', not only 'patch') falls through to the patch case of
`calculateNextVersion` rather than failing. -/
theorem c10_unknown_kind_falls_through_to_patch (v kind : String) (m n p : Nat)
    (h : parseVersion v = some (m, n, p))
    (hmaj : kind ≠ "major") (hmin : kind ≠ "minor") :
    calculateNextVersion (some v) kind = some (createVersion m n (p + 1)) :=
  calculateNextVersion_patch h kind hmaj hmin

/-- C10 witness: the unrecognized increment type 'foo' performs a patch
increment on "0.1.0". -/
theorem c10_unknown_kind_falls_through_to_patch_witness :
    parseVersion "0.1.0" = some (0, 1, 0) ∧ ("foo" : String) ≠ "major" ∧
    ("foo" : String) ≠ "minor" ∧
    calculateNextVersion (some "0.1.0") "foo" = some (createVersion 0 1 1) := by
  have h : parseVersion "0.1.0" = some (0, 1, 0) := by decide
  exact ⟨h, by decide, by decide,
    c10_unknown_kind_falls_through_to_patch "0.1.0" "foo" 0 1 0 h (by decide) (by decide)⟩

/-- C4: on well-formed version strings, `compareVersions` is a strict
total order: it returns one of -1, 0, 1, is antisymmetric
(`compare(a,b) = -compare(b,a)`), transitive, and orders versions by the
integer value of (major, minor, patch) — hence
`compare("0.2.0", "0.10.0") < 0` rather than the string order. -/
theorem c4_compare_strict_total_order (a b c : String) (xa xb xc : Nat × Nat × Nat)
    (ha : parseVersion a = some xa) (hb : parseVersion b = some xb)
    (hc : parseVersion c = some xc) :
    (∃ r : Int, compareVersions a b = some r ∧ (r = -1 ∨ r = 0 ∨ r = 1) ∧
      compareVersions b a = some (-r)) ∧
    (compareVersions a b = some (-1) → compareVersions b c = some (-1) →
      compareVersions a c = some (-1)) ∧
    (compareVersions a b = some (-1) ↔ lexLtSpec xa xb) ∧
    compareVersions "0.2.0" "0.10.0" = some (-1) := by
  refine ⟨⟨compareTriples xa xb, compareVersions_eq ha hb, compareTriples_range xa xb, ?_⟩,
    ?_, ?_, by decide⟩
  · rw [compareVersions_eq hb ha]
    have := compareTriples_antisymm xa xb
    congr 1
    omega
  · intro h1 h2
    rw [compareVersions_eq ha hb] at h1
    rw [compareVersions_eq hb hc] at h2
    rw [compareVersions_eq ha hc]
    injection h1 with h1
    injection h2 with h2
    rw [compareTriples_trans h1 h2]
  · rw [compareVersions_eq ha hb]
    rw [show (some (compareTriples xa xb) = some (-1)) ↔ (compareTriples xa xb = -1) by
      constructor
      · intro h; injection h
      · intro h; rw [h]]
    exact compareTriples_lt_iff xa xb

/-- C4 witness: the order properties evaluated at "0.1.0", "0.2.0",
"0.10.0". -/
theorem c4_compare_strict_total_order_witness :
    parseVersion "0.1.0" = some (0, 1, 0) ∧ parseVersion "0.2.0" = some (0, 2, 0) ∧
    parseVersion "0.10.0" = some (0, 10, 0) ∧
    (compareVersions "0.1.0" "0.2.0" = some (-1) →
      compareVersions "0.2.0" "0.10.0" = some (-1) →
      compareVersions "0.1.0" "0.10.0" = some (-1)) := by
  refine ⟨by decide, by decide, by decide, ?_⟩
  exact (c4_compare_strict_total_order "0.1.0" "0.2.0" "0.10.0" (0, 1, 0) (0, 2, 0) (0, 10, 0)
    (by decide) (by decide) (by decide)).2.1

lemma jsTruthyOptStr_some {X : String} (h : X ≠ "") : jsTruthyOptStr (some X) = true := by
  simp [jsTruthyOptStr, h]

/-- C6: the change detector maps (absent, present) and (present, absent)
to true and (absent, absent) to false, and on two present fingerprints it
is exactly their inequality — for content-addressed fingerprints, string
inequality of the content hashes; the truthiness-guarded absent cases of
the embedded variant behave identically on (non-null) payloads. -/
theorem c6_change_detector_truth_table (X Y : String) (j : JsonVal)
    (hX : X ≠ "") (hY : Y ≠ "") (hj : jsTruthyJson j = true) :
    hasContractCodeChangedHash none (some X) = true ∧
    hasContractCodeChangedHash (some X) none = true ∧
    hasContractCodeChangedHash none none = false ∧
    (hasContractCodeChangedHash (some X) (some Y) = true ↔ X ≠ Y) ∧
    hasContractCodeChangedObj none (some j) = true ∧
    hasContractCodeChangedObj (some j) none = true ∧
    hasContractCodeChangedObj none none = false := by
  refine ⟨?_, ?_, by decide, ?_, ?_, ?_, by decide⟩
  · simp [hasContractCodeChangedHash, jsTruthyOptStr_some hX, jsTruthyOptStr]
    exact hX
  · simp [hasContractCodeChangedHash, jsTruthyOptStr_some hX, jsTruthyOptStr]
    exact hX
  · simp [hasContractCodeChangedHash, jsTruthyOptStr_some hX, jsTruthyOptStr_some hY]
  · simp [hasContractCodeChangedObj, jsTruthyOptJson, hj]
  · simp [hasContractCodeChangedObj, jsTruthyOptJson, hj]

/-- C6 witness: the truth table evaluated at two concrete content hashes
and a concrete payload object. -/
theorem c6_change_detector_truth_table_witness :
    ("QmA" : String) ≠ "" ∧ ("QmB" : String) ≠ "" ∧
    jsTruthyJson (.obj (.cons "k" (.str "v") .nil)) = true ∧
    (hasContractCodeChangedHash (some "QmA") (some "QmB") = true ↔ ("QmA" : String) ≠ "QmB") := by
  refine ⟨by decide, by decide, by decide, ?_⟩
  exact (c6_change_detector_truth_table "QmA" "QmB" (.obj (.cons "k" (.str "v") .nil))
    (by decide) (by decide) (by decide)).2.2.2.1

/-- C5 counterexample: two embedded payloads that are semantically
identical — their member lists are permutations of one another and every
key looks up to the same value — but differ only in key order are
reported as changed (`true`), because `JSON.stringify` serializes members
in insertion order; the claim asserts they compare equal (`false`). -/
theorem c5_counterexample :
    hasContractCodeChangedObj
      (some (.obj (.cons "a" (.num 1) (.cons "b" (.num 2) .nil))))
      (some (.obj (.cons "b" (.num 2) (.cons "a" (.num 1) .nil)))) = true ∧
    (membersList (.cons "a" (.num 1) (.cons "b" (.num 2) .nil))).Perm
      (membersList (.cons "b" (.num 2) (.cons "a" (.num 1) .nil))) ∧
    (∀ k : String,
      (membersList (.cons "a" (.num 1) (.cons "b" (.num 2) .nil))).lookup k =
      (membersList (.cons "b" (.num 2) (.cons "a" (.num 1) .nil))).lookup k) := by
  refine ⟨by decide, List.Perm.swap _ _ _, ?_⟩
  intro k
  show (List.lookup k [("a", JsonVal.num 1), ("b", JsonVal.num 2)]) =
    (List.lookup k [("b", JsonVal.num 2), ("a", JsonVal.num 1)])
  by_cases ha : k = "a"
  · subst ha
    rfl
  · by_cases hb : k = "b"
    · subst hb
      rfl
    · simp [List.lookup, beq_false_of_ne ha, beq_false_of_ne hb]

/-- C5 amended: on two present embedded payloads the change detector
compares the `JSON.stringify` serializations, which preserve key insertion
order: the payloads compare equal (changed = false) exactly when their
serializations coincide — in particular any payload compares equal to
itself, while semantically identical objects differing only in key order
may serialize differently and then compare as changed. -/
theorem c5_change_detection_is_serialization_equality (o1 o2 : JsonVal)
    (h1 : jsTruthyJson o1 = true) (h2 : jsTruthyJson o2 = true) :
    (hasContractCodeChangedObj (some o1) (some o2) = false ↔ stringify o1 = stringify o2) ∧
    hasContractCodeChangedObj (some o1) (some o1) = false := by
  constructor
  · simp [hasContractCodeChangedObj, jsTruthyOptJson, h1, h2, stringifyOpt]
  · simp [hasContractCodeChangedObj, jsTruthyOptJson, h1]

/-- C5 witness: the amended property evaluated at the two reordered
payloads of the counterexample. -/
theorem c5_change_detection_is_serialization_equality_witness :
    jsTruthyJson (.obj (.cons "a" (.num 1) (.cons "b" (.num 2) .nil))) = true ∧
    jsTruthyJson (.obj (.cons "b" (.num 2) (.cons "a" (.num 1) .nil))) = true ∧
    (hasContractCodeChangedObj
        (some (.obj (.cons "a" (.num 1) (.cons "b" (.num 2) .nil))))
        (some (.obj (.cons "b" (.num 2) (.cons "a" (.num 1) .nil)))) = false ↔
      stringify (.obj (.cons "a" (.num 1) (.cons "b" (.num 2) .nil))) =
        stringify (.obj (.cons "b" (.num 2) (.cons "a" (.num 1) .nil)))) := by
  refine ⟨by decide, by decide, ?_⟩
  exact (c5_change_detection_is_serialization_equality
    (.obj (.cons "a" (.num 1) (.cons "b" (.num 2) .nil)))
    (.obj (.cons "b" (.num 2) (.cons "a" (.num 1) .nil)))
    (by decide) (by decide)).1

/-! ### Helper lemmas for the controller branches -/

lemma changedObj_self {j : JsonVal} (hj : jsTruthyJson j = true) :
    hasContractCodeChangedObj (some j) (some j) = false := by
  simp [hasContractCodeChangedObj, jsTruthyOptJson, hj]

lemma createDeployment_noop (store : List DeploymentRec) (W repo : String) (cc : JsonVal)
    (latest : DeploymentRec)
    (hW : W ≠ "") (hcc : jsTruthyJson cc = true) (hrepo : repo ≠ "")
    (hwallet : isValidWallet W = true)
    (hlatest : findLatestByRepo store W repo = some latest)
    (hsame : hasContractCodeChangedObj (some latest.contractCode) (some cc) = false) :
    createDeployment store W cc repo =
      (.badRequest "nothing to commit, everything is up to date", store) := by
  unfold createDeployment
  rw [if_neg (by simp [hW, hcc, hrepo])]
  rw [if_neg (by simp [hwallet])]
  rw [hlatest]
  simp [hsame]

lemma createDeployment_first (store : List DeploymentRec) (W repo : String) (cc : JsonVal)
    (hW : W ≠ "") (hcc : jsTruthyJson cc = true) (hrepo : repo ≠ "")
    (hwallet : isValidWallet W = true)
    (hnone : findLatestByRepo store W repo = none) :
    createDeployment store W cc repo =
      (.created "0.1.0", store ++ [⟨W, repo, cc, "0.1.0"⟩]) := by
  unfold createDeployment
  rw [if_neg (by simp [hW, hcc, hrepo])]
  rw [if_neg (by simp [hwallet])]
  rw [hnone]
  rfl

lemma findLatestByRepo_nil (W repo : String) : findLatestByRepo [] W repo = none := rfl

lemma findLatestByRepo_single (W repo : String) (rec : DeploymentRec)
    (hw : rec.walletAddress = W) (hr : rec.contractRepoName = repo) :
    findLatestByRepo [rec] W repo = some rec := by
  unfold findLatestByRepo filterRepo
  simp [List.filter, hw, hr]

/-- C1 counterexample: in the paginated write flow
(`DeploymentController.deployContract`, reached through POST /api/deploy
of the ESM routing), submitting the same payload twice in a row for a new
identity is not rejected: the second call succeeds with the advanced
version "0.1.1" and the store ends with two records, not one. -/
theorem c1_counterexample :
    (deployContract [] "0xaaaaaaaaaaaaaaaaaaaaaaaaaaaaaaaaaaaaaaaa"
      (.obj (.cons "solidity" (.str "contract A") .nil)) "repo").1 =
      DeployResult.created "0.1.0" ∧
    (deployContract
      ((deployContract [] "0xaaaaaaaaaaaaaaaaaaaaaaaaaaaaaaaaaaaaaaaa"
        (.obj (.cons "solidity" (.str "contract A") .nil)) "repo").2)
      "0xaaaaaaaaaaaaaaaaaaaaaaaaaaaaaaaaaaaaaaaa"
      (.obj (.cons "solidity" (.str "contract A") .nil)) "repo").1 =
      DeployResult.created "0.1.1" ∧
    ((deployContract
      ((deployContract [] "0xaaaaaaaaaaaaaaaaaaaaaaaaaaaaaaaaaaaaaaaa"
        (.obj (.cons "solidity" (.str "contract A") .nil)) "repo").2)
      "0xaaaaaaaaaaaaaaaaaaaaaaaaaaaaaaaaaaaaaaaa"
      (.obj (.cons "solidity" (.str "contract A") .nil)) "repo").2).length = 2 := by
  refine ⟨by decide, by decide, by decide⟩

/-- C1 amended: in the change-detecting embedded-payload write flow
(`createDeployment`), when the identity already has a latest record and
the candidate payload's fingerprint equals the latest record's
fingerprint, the request is rejected with the message "nothing to commit,
everything is up to date", no record is created and the version is not
advanced; submitting the same payload twice in a row for a new identity
leaves the store with exactly one record, of version "0.1.0".  (The
paginated variant `deployContract` performs no change detection and
instead appends a patch-incremented record.) -/
theorem c1_noop_rejected_in_change_detecting_flow
    (store : List DeploymentRec) (W repo : String) (cc : JsonVal) (latest : DeploymentRec)
    (hW : W ≠ "") (hcc : jsTruthyJson cc = true) (hrepo : repo ≠ "")
    (hwallet : isValidWallet W = true)
    (hlatest : findLatestByRepo store W repo = some latest)
    (hsame : hasContractCodeChangedObj (some latest.contractCode) (some cc) = false) :
    (createDeployment store W cc repo).1 =
      DeployResult.badRequest "nothing to commit, everything is up to date" ∧
    (createDeployment store W cc repo).2 = store ∧
    (createDeployment [] W cc repo).1 = DeployResult.created "0.1.0" ∧
    (createDeployment ((createDeployment [] W cc repo).2) W cc repo).1 =
      DeployResult.badRequest "nothing to commit, everything is up to date" ∧
    (createDeployment ((createDeployment [] W cc repo).2) W cc repo).2 =
      (createDeployment [] W cc repo).2 ∧
    ((createDeployment [] W cc repo).2).length = 1 := by
  have hnoop := createDeployment_noop store W repo cc latest hW hcc hrepo hwallet hlatest hsame
  have hfirst := createDeployment_first [] W repo cc hW hcc hrepo hwallet
    (findLatestByRepo_nil W repo)
  have hsingle : findLatestByRepo ((createDeployment [] W cc repo).2) W repo =
      some ⟨W, repo, cc, "0.1.0"⟩ := by
    rw [hfirst]
    exact findLatestByRepo_single W repo _ rfl rfl
  have hsecond := createDeployment_noop ((createDeployment [] W cc repo).2) W repo cc
    ⟨W, repo, cc, "0.1.0"⟩ hW hcc hrepo hwallet hsingle (changedObj_self hcc)
  refine ⟨by rw [hnoop], by rw [hnoop], by rw [hfirst], by rw [hsecond], by rw [hsecond],
    by rw [hfirst]; rfl⟩

/-- C1 witness: the amended rejection behavior evaluated at a concrete
one-record store holding the same payload that is resubmitted. -/
theorem c1_noop_rejected_in_change_detecting_flow_witness :
    findLatestByRepo
      [⟨"0xaaaaaaaaaaaaaaaaaaaaaaaaaaaaaaaaaaaaaaaa", "repo",
        .obj (.cons "solidity" (.str "contract A") .nil), "0.1.0"⟩]
      "0xaaaaaaaaaaaaaaaaaaaaaaaaaaaaaaaaaaaaaaaa" "repo" =
      some ⟨"0xaaaaaaaaaaaaaaaaaaaaaaaaaaaaaaaaaaaaaaaa", "repo",
        .obj (.cons "solidity" (.str "contract A") .nil), "0.1.0"⟩ ∧
    (createDeployment
      [⟨"0xaaaaaaaaaaaaaaaaaaaaaaaaaaaaaaaaaaaaaaaa", "repo",
        .obj (.cons "solidity" (.str "contract A") .nil), "0.1.0"⟩]
      "0xaaaaaaaaaaaaaaaaaaaaaaaaaaaaaaaaaaaaaaaa"
      (.obj (.cons "solidity" (.str "contract A") .nil)) "repo").1 =
      DeployResult.badRequest "nothing to commit, everything is up to date" := by
  refine ⟨rfl, ?_⟩
  exact (c1_noop_rejected_in_change_detecting_flow
    [⟨"0xaaaaaaaaaaaaaaaaaaaaaaaaaaaaaaaaaaaaaaaa", "repo",
      .obj (.cons "solidity" (.str "contract A") .nil), "0.1.0"⟩]
    "0xaaaaaaaaaaaaaaaaaaaaaaaaaaaaaaaaaaaaaaaa" "repo"
    (.obj (.cons "solidity" (.str "contract A") .nil))
    ⟨"0xaaaaaaaaaaaaaaaaaaaaaaaaaaaaaaaaaaaaaaaa", "repo",
      .obj (.cons "solidity" (.str "contract A") .nil), "0.1.0"⟩
    (by decide) (by decide) (by decide) (by decide) rfl (by decide)).1

/-- C2: along the chronological record sequence of any one
(wallet, repository) identity produced by serial executions of the
embedded-payload write flow, the version strings are strictly increasing
under `compareVersions`, equivalently strictly increasing in the
component-wise (major, then minor, then patch) order. -/
theorem c2_versions_strictly_increasing
    (reqs : List (String × JsonVal × String)) (W repo : String) :
    List.Chain' (fun a b => compareVersions a b = some (-1))
      ((filterRepo (runAll reqs) W repo).map (·.version)) ∧
    List.Chain' (fun a b => lexLtSpec (keyOf a) (keyOf b))
      ((filterRepo (runAll reqs) W repo).map (·.version)) := by
  have h := (StoreInv_runAll reqs).2 W repo
  refine ⟨h, ?_⟩
  refine List.Chain'.imp ?_ h
  intro a b hab
  unfold compareVersions at hab
  rcases h1 : parseVersion a with _ | xa
  · rw [h1] at hab
    exact absurd hab (by simp)
  rcases h2 : parseVersion b with _ | xb
  · rw [h1, h2] at hab
    exact absurd hab (by simp)
  rw [h1, h2] at hab
  have hab' : compareTriples xa xb = -1 := by
    injection hab
  rw [show keyOf a = xa by simp [keyOf, h1], show keyOf b = xb by simp [keyOf, h2]]
  exact (compareTriples_lt_iff xa xb).mp hab'

/-- C9: listing repository history for an identity with zero stored
records yields the 404-equivalent not-found outcome, never an empty-list
success — in both the CommonJS history controller and the paginated
variant. -/
theorem c9_empty_history_not_found (store store2 : List DeploymentRec)
    (W repo W2 repo2 : String)
    (hW : W ≠ "") (hrepo : repo ≠ "") (hempty : filterRepo store W repo = [])
    (hW2 : isValidWallet W2 = true) (hrepo2 : jsTrim repo2 ≠ "")
    (hempty2 : filterRepo store2 (jsToLower W2) (jsTrim repo2) = []) :
    getRepoDeploymentHistory store W repo =
      HistoryResult.notFound "No deployments found for the specified repository" ∧
    getDeploymentsByRepo store2 W2 repo2 =
      RepoListResult.notFound "No deployments found for this repository" := by
  constructor
  · unfold getRepoDeploymentHistory
    rw [if_neg (by simp [hW, hrepo])]
    dsimp only
    unfold findRepoHistory
    rw [hempty]
    rfl
  · unfold getDeploymentsByRepo
    rw [if_neg (by simp [hW2])]
    rw [if_neg hrepo2]
    dsimp only
    rw [hempty2]
    rfl

/-- C9 witness: both listings evaluated on the empty store. -/
theorem c9_empty_history_not_found_witness :
    filterRepo [] "0xaaaaaaaaaaaaaaaaaaaaaaaaaaaaaaaaaaaaaaaa" "repo" = [] ∧
    getRepoDeploymentHistory [] "0xaaaaaaaaaaaaaaaaaaaaaaaaaaaaaaaaaaaaaaaa" "repo" =
      HistoryResult.notFound "No deployments found for the specified repository" := by
  refine ⟨rfl, ?_⟩
  exact (c9_empty_history_not_found [] [] "0xaaaaaaaaaaaaaaaaaaaaaaaaaaaaaaaaaaaaaaaa" "repo"
    "0xaaaaaaaaaaaaaaaaaaaaaaaaaaaaaaaaaaaaaaaa" "repo"
    (by decide) (by decide) rfl (by decide) (by decide) rfl).1

lemma versionLe_to_compare {a b : String}
    (ha : isValidVersion a = true) (hb : isValidVersion b = true)
    (hle : versionLe a b = true) : ∃ r, compareVersions a b = some r ∧ r ≤ 0 := by
  obtain ⟨xa, hxa⟩ := isValidVersion_some ha
  obtain ⟨xb, hxb⟩ := isValidVersion_some hb
  refine ⟨compareTriples xa xb, compareVersions_eq hxa hxb, ?_⟩
  unfold versionLe at hle
  rw [decide_eq_true_iff] at hle
  rw [show keyOf a = xa by simp [keyOf, hxa], show keyOf b = xb by simp [keyOf, hxb]] at hle
  exact hle

lemma getVersionStats_filter_eq (vs : List String) :
    getVersionStats vs = getVersionStats (vs.filter isValidVersion) := by
  by_cases hf : vs.filter isValidVersion = []
  · rw [getVersionStats_nil_valid vs hf, hf]
    rfl
  · rw [getVersionStats_pos vs hf,
      getVersionStats_pos (vs.filter isValidVersion) (by rw [filter_idem]; exact hf)]
    rw [filter_idem]

/-- C8: `getVersionStats` ignores entries that fail to parse; on an empty
filtered set it returns the zero-valued result with latest and oldest
absent; otherwise it reports the count of valid entries, a minimal entry
under compare as oldest, a maximal one as latest, the number of distinct
major components, and the number of distinct (major, minor) pairs — in
particular stats(["0.1.0", "0.2.0", "1.0.0"]) reports total 3, oldest
"0.1.0", latest "1.0.0" and 2 distinct majors. -/
theorem c8_get_version_stats (vs : List String) :
    getVersionStats vs = getVersionStats (vs.filter isValidVersion) ∧
    (vs.filter isValidVersion = [] → getVersionStats vs = emptyStats) ∧
    (vs.filter isValidVersion ≠ [] →
      (getVersionStats vs).total = (vs.filter isValidVersion).length ∧
      (getVersionStats vs).patchReleases = (vs.filter isValidVersion).length ∧
      (∃ mn, (getVersionStats vs).oldest = some mn ∧ mn ∈ vs.filter isValidVersion ∧
        ∀ w ∈ vs.filter isValidVersion, ∃ r, compareVersions mn w = some r ∧ r ≤ 0) ∧
      (∃ mx, (getVersionStats vs).latest = some mx ∧ mx ∈ vs.filter isValidVersion ∧
        ∀ w ∈ vs.filter isValidVersion, ∃ r, compareVersions w mx = some r ∧ r ≤ 0) ∧
      (getVersionStats vs).majorReleases =
        ((vs.filter isValidVersion).map majorKey).toFinset.card ∧
      (getVersionStats vs).minorReleases =
        ((vs.filter isValidVersion).map majorMinorKey).toFinset.card) ∧
    getVersionStats ["0.1.0", "0.2.0", "1.0.0"] =
      { total := 3, latest := some "1.0.0", oldest := some "0.1.0",
        majorReleases := 2, minorReleases := 3, patchReleases := 3 } := by
  refine ⟨getVersionStats_filter_eq vs, getVersionStats_nil_valid vs, ?_, by decide⟩
  intro hne
  rw [getVersionStats_pos vs hne]
  have hperm0 := List.perm_insertionSort
    (fun a b : String => versionLe a b = true) (vs.filter isValidVersion)
  have hsne : (vs.filter isValidVersion).insertionSort
      (fun a b => versionLe a b = true) ≠ [] := by
    intro h
    apply hne
    have h2 := hperm0.symm
    rw [h] at h2
    exact h2.eq_nil
  obtain ⟨s0, srest, hs⟩ := List.exists_cons_of_ne_nil hsne
  have hperm : (s0 :: srest).Perm (vs.filter isValidVersion) := hs ▸ hperm0
  have hsort0 := List.sorted_insertionSort
    (fun a b : String => versionLe a b = true) (vs.filter isValidVersion)
  have hsort : (s0 :: srest).Pairwise (fun a b => versionLe a b = true) := hs ▸ hsort0
  have hvalidmem : ∀ w ∈ vs.filter isValidVersion, isValidVersion w = true :=
    fun w hw => (List.mem_filter.mp hw).2
  have hs0mem : s0 ∈ vs.filter isValidVersion := hperm.subset (List.mem_cons_self s0 srest)
  have hlastmem : (s0 :: srest).getLast (by simp) ∈ vs.filter isValidVersion :=
    hperm.subset (List.getLast_mem (by simp))
  refine ⟨rfl, rfl, ⟨s0, ?_, hs0mem, ?_⟩, ⟨(s0 :: srest).getLast (by simp), ?_, hlastmem, ?_⟩,
    ?_, ?_⟩
  · show ((vs.filter isValidVersion).insertionSort
      (fun a b => versionLe a b = true)).head? = some s0
    rw [hs]
    rfl
  · intro w hw
    have hwmem : w ∈ s0 :: srest := (hperm.mem_iff).mpr hw
    have hle : versionLe s0 w = true := pairwise_head_le hsort (versionLe_refl s0) w hwmem
    exact versionLe_to_compare (hvalidmem s0 hs0mem) (hvalidmem w hw) hle
  · show ((vs.filter isValidVersion).insertionSort
      (fun a b => versionLe a b = true)).getLast? = some ((s0 :: srest).getLast (by simp))
    rw [hs]
    exact List.getLast?_eq_getLast _ _
  · intro w hw
    have hwmem : w ∈ s0 :: srest := (hperm.mem_iff).mpr hw
    have hle : versionLe w ((s0 :: srest).getLast (by simp)) = true :=
      pairwise_le_getLast versionLe_refl (s0 :: srest) (by simp) hsort w hwmem
    exact versionLe_to_compare (hvalidmem w hw) (hvalidmem _ hlastmem) hle
  · show (((vs.filter isValidVersion).insertionSort
      (fun a b => versionLe a b = true)).foldl (fun s v => setInsert s (majorKey v)) []).length =
      ((vs.filter isValidVersion).map majorKey).toFinset.card
    rw [foldl_setInsert_card]
    exact congrArg Finset.card (perm_toFinset (hperm0.map majorKey))
  · show (((vs.filter isValidVersion).insertionSort
      (fun a b => versionLe a b = true)).foldl
        (fun s v => setInsert s (majorMinorKey v)) []).length =
      ((vs.filter isValidVersion).map majorMinorKey).toFinset.card
    rw [foldl_setInsert_card]
    exact congrArg Finset.card (perm_toFinset (hperm0.map majorMinorKey))

/-- C8 witness: the statistics evaluated at ["0.1.0", "0.2.0", "1.0.0"],
whose filtered set is nonempty. -/
theorem c8_get_version_stats_witness :
    (["0.1.0", "0.2.0", "1.0.0"].filter isValidVersion ≠ []) ∧
    (getVersionStats ["0.1.0", "0.2.0", "1.0.0"]).total =
      (["0.1.0", "0.2.0", "1.0.0"].filter isValidVersion).length := by
  have h := c8_get_version_stats ["0.1.0", "0.2.0", "1.0.0"]
  exact ⟨by decide, (h.2.2.1 (by decide)).1⟩
